import Mathlib

/-!
Verification of the courier rate-matching system ("mic" repository).

The repository ships a React frontend (src/components/RateFinder.tsx,
src/components/DataEntry.tsx, frontend/src/App.js) together with project
documentation describing a Flask backend (app.py / app_smart_fixed.py) that
implements the deterministic rate-matching core.  The backend source itself is
not part of the repository snapshot, so the core components (Country
Normalizer, Zone Resolver, Rate Table Index, Weight Tier Matcher, Match
Aggregator) are modelled here from the specification, while the frontend
helpers (parseResponse, the booking-form submission) are translated directly
from the TypeScript/JavaScript sources.

Strings of the core model are plain lists of characters so that trimming and
case folding stay elementary; weights and rates are exact rationals.
-/

namespace Mic

/-- Character strings of the core model. -/
abbrev Str := List Char

/-- Whitespace test used by trimming (space, tab, newline, carriage return). -/
def isSpaceChar (c : Char) : Bool :=
  c = ' ' || c = '\t' || c = '\n' || c = '\r'

/-- Modelled from the spec: the input-trimming step of the Country Normalizer
(section 4.1, "Trims and case-folds input"); the backend implementing it is
missing from the snapshot.  Removes leading and trailing whitespace. -/
def strTrim (s : Str) : Str :=
  List.rdropWhile isSpaceChar (List.dropWhile isSpaceChar s)

/-- Modelled from the spec: the case-folding step of the Country Normalizer
(section 4.1); lower-cases every character. -/
def fold (s : Str) : Str :=
  s.map Char.toLower

/-- Substring test: `isSub a b` holds when `a` occurs contiguously in `b`. -/
def isSub (a b : Str) : Bool :=
  b.tails.any (fun t => a.isPrefixOf t)

/-- Modelled from the spec (section 3, RateEntry): one row of the carrier rate
dataset.  Weights and rates are exact rationals. -/
structure RateEntry where
  carrier : Str
  country_or_zone_key : Str
  service_type : Str
  weight_tier : ℚ
  rate : ℚ
  currency : Str
deriving DecidableEq

/-- Modelled from the spec (section 3, ZoneMapping): per-carrier zone codes of
one country.  The DHL zone is numeric in the spec; it is kept here as its
token string, which is how the lookup key uses it. -/
structure ZoneMapping where
  country : Str
  fedex_zone : Option Str
  dhl_zone : Option Str
  ups_zone : Option Str
deriving DecidableEq

/-- Modelled from the spec (sections 3 and 6): the dataset loaded once at
startup.  `aliases` maps a case-folded alternate spelling to its canonical
country name; `countries` is the list of known canonical country names used
for substring matching; `carriers` is the list of known carriers iterated by
the Match Aggregator. -/
structure Dataset where
  rate_entries : List RateEntry
  zone_mappings : List ZoneMapping
  aliases : List (Str × Str)
  countries : List Str
  carriers : List Str

/-- Alias-table lookup on the case-folded input (first matching entry). -/
def lookupAlias (aliases : List (Str × Str)) (f : Str) : Option Str :=
  (aliases.find? (fun p => decide (p.1 = f))).map Prod.snd

/-- Candidate country names whose folded form matches the folded input as a
substring in either direction (section 4.1). -/
def substrMatches (countries : List Str) (f : Str) : List Str :=
  countries.filter (fun n => isSub f (fold n) || isSub (fold n) f)

/-- The best (longest) candidate among `n` and the remaining candidates,
`n` and earlier candidates winning ties. -/
def bestMatchCore (n : Str) : List Str → Str
  | [] => n
  | m :: ms => if n.length < (bestMatchCore m ms).length then bestMatchCore m ms else n

/-- The best (longest) candidate, earliest candidate winning ties. -/
def bestMatch : List Str → Option Str
  | [] => none
  | n :: ns => some (bestMatchCore n ns)

/-- Modelled from the spec: the Country Normalizer `normalize` (section 4.1);
the backend implementing it is missing from the snapshot.  Trims and
case-folds the input, resolves it through the alias table, falls back to
two-directional substring matching over the known country names keeping the
longest match, and finally returns the trimmed input unchanged. -/
def normalize (ds : Dataset) (input : Str) : Str :=
  match lookupAlias ds.aliases (fold (strTrim input)) with
  | some c => c
  | none =>
      match bestMatch (substrMatches ds.countries (fold (strTrim input))) with
      | some c => c
      | none => strTrim input

/-- The all-absent zone mapping (section 4.2: "empty mapping object"). -/
def emptyZones (c : Str) : ZoneMapping :=
  { country := c, fedex_zone := none, dhl_zone := none, ups_zone := none }

/-- Modelled from the spec: the Zone Resolver `resolveZones` (section 4.2);
the backend implementing it is missing from the snapshot.  Direct lookup of
the canonical country in the zone-mapping table; when nothing resolves it
returns the empty mapping, which is not an error.  The looser textual
zone-pattern recognition of section 4.2 has no precise algorithm in the spec
and is not modelled; no claim depends on it. -/
def resolveZones (ds : Dataset) (c : Str) : ZoneMapping :=
  match ds.zone_mappings.find? (fun z => decide (z.country = c)) with
  | some z => z
  | none => emptyZones c

/-- Carrier name constants used by the zone-token selection. -/
def fedexName : Str := ['F', 'e', 'd', 'E', 'x']

/-- DHL carrier name. -/
def dhlName : Str := ['D', 'H', 'L']

/-- UPS carrier name. -/
def upsName : Str := ['U', 'P', 'S']

/-- Modelled from the spec (section 3, ZoneMapping): the zone token of a given
carrier, absent when that carrier has no zone mapping for the country. -/
def zoneToken (zm : ZoneMapping) (carrier : Str) : Option Str :=
  if carrier = fedexName then zm.fedex_zone
  else if carrier = dhlName then zm.dhl_zone
  else if carrier = upsName then zm.ups_zone
  else none

/-- Ordering of rate entries by weight tier. -/
def tierLE (a b : RateEntry) : Prop :=
  a.weight_tier ≤ b.weight_tier

instance : DecidableRel tierLE :=
  fun a b => inferInstanceAs (Decidable (a.weight_tier ≤ b.weight_tier))

instance : IsTotal RateEntry tierLE :=
  ⟨fun a b => le_total a.weight_tier b.weight_tier⟩

instance : IsTrans RateEntry tierLE :=
  ⟨fun _ _ _ hab hbc => le_trans hab hbc⟩

/-- Modelled from the spec: the Rate Table Index `lookup` (section 4.3); the
backend implementing it is missing from the snapshot.  Returns the entries of
one carrier under one country-or-zone key, ordered by weight tier ascending
(stably, so earliest-inserted duplicates stay first, section 4.4). -/
def lookup (ds : Dataset) (carrier key : Str) : List RateEntry :=
  List.insertionSort tierLE
    (ds.rate_entries.filter
      (fun e => decide (e.carrier = carrier) && decide (e.country_or_zone_key = key)))

/-- Modelled from the spec: the Weight Tier Matcher `matchTier` (section 4.4);
the backend implementing it is missing from the snapshot.  Returns the first
entry, in the given ascending tier order, whose weight tier is at least the
requested weight, and none when the weight exceeds every tier. -/
def matchTier : List RateEntry → ℚ → Option RateEntry
  | [], _ => none
  | e :: es, w => if w ≤ e.weight_tier then some e else matchTier es w

/-- Provenance of a match (section 3, MatchResult). -/
inductive MatchType where
  | direct
  | zone_based
deriving DecidableEq

/-- Modelled from the spec (section 3, MatchResult): one quoted rate.  The
final rate is always the matched entry's rate, never extrapolated. -/
structure MatchResult where
  carrier : Str
  service_type : Str
  rate : ℚ
  currency : Str
  zone : Option Str
  matched_country : Str
  weight_tier : ℚ
  match_type : MatchType
  final_rate : ℚ
deriving DecidableEq

/-- Builds the MatchResult of a matched rate entry (section 4.5, step 5). -/
def toMatchResult (c : Str) (zone : Option Str) (mt : MatchType) (e : RateEntry) : MatchResult :=
  { carrier := e.carrier, service_type := e.service_type, rate := e.rate,
    currency := e.currency, zone := zone, matched_country := c,
    weight_tier := e.weight_tier, match_type := mt, final_rate := e.rate }

/-- Modelled from the spec (section 4.5, step 4): the direct-country matches,
one attempted per known carrier. -/
def directResults (ds : Dataset) (c : Str) (w : ℚ) : List MatchResult :=
  ds.carriers.filterMap
    (fun k => (matchTier (lookup ds k c) w).map (toMatchResult c none MatchType.direct))

/-- Modelled from the spec (section 4.5, step 4): the zone-based matches, one
attempted per known carrier that has a zone token for the country. -/
def zoneResults (ds : Dataset) (c : Str) (w : ℚ) (zm : ZoneMapping) : List MatchResult :=
  ds.carriers.filterMap
    (fun k =>
      match zoneToken zm k with
      | none => none
      | some tok =>
          (matchTier (lookup ds k tok) w).map (toMatchResult c (some tok) MatchType.zone_based))

/-- The deduplication identity of a match (section 4.5, step 6). -/
def resultKey (r : MatchResult) : Str × Str × ℚ :=
  (r.carrier, r.service_type, r.final_rate)

/-- Helper of `dedupByKey`: drops any match whose key was already kept. -/
def dedupAux (seen : List (Str × Str × ℚ)) : List MatchResult → List MatchResult
  | [] => []
  | r :: rs =>
      if resultKey r ∈ seen then dedupAux seen rs
      else r :: dedupAux (resultKey r :: seen) rs

/-- Modelled from the spec (section 4.5, step 6): keeps the first match of
each carrier, service type and final rate; direct matches are listed before
zone-based ones, so the direct variant of a duplicate is the one kept. -/
def dedupByKey (l : List MatchResult) : List MatchResult :=
  dedupAux [] l

/-- Aggregation of both paths followed by deduplication (steps 4 to 6). -/
def aggregate (ds : Dataset) (c : Str) (w : ℚ) (zm : ZoneMapping) : List MatchResult :=
  dedupByKey (directResults ds c w ++ zoneResults ds c w zm)

/-- A match is priced when its final rate is positive (section 4.5, step 7). -/
def ratePos (r : MatchResult) : Bool :=
  decide (0 < r.final_rate)

/-- Ordering of match results by final rate. -/
def rateLE (a b : MatchResult) : Prop :=
  a.final_rate ≤ b.final_rate

instance : DecidableRel rateLE :=
  fun a b => inferInstanceAs (Decidable (a.final_rate ≤ b.final_rate))

instance : IsTotal MatchResult rateLE :=
  ⟨fun a b => le_total a.final_rate b.final_rate⟩

instance : IsTrans MatchResult rateLE :=
  ⟨fun _ _ _ hab hbc => le_trans hab hbc⟩

/-- The only error the core signals per call (section 7). -/
inductive FindRatesError where
  | InvalidInput
deriving DecidableEq

/-- Modelled from the spec (section 6): the output of `findRates`, with the
unpriced matches kept in a diagnostic side channel (section 4.5, step 7). -/
structure FindRatesOutput where
  results : List MatchResult
  excluded : List MatchResult
  zone_mappings : ZoneMapping

/-- Modelled from the spec: the Match Aggregator `findRates` (section 4.5);
the backend implementing it is missing from the snapshot.  Validates the
input, normalizes the country, resolves zones best-effort, collects direct
and zone-based tier matches for every known carrier, deduplicates keeping the
direct variant, excludes non-positive final rates into the side channel and
sorts the primary results ascending by final rate.  `findRatesOk` is the
valid-input branch. -/
def findRatesOk (ds : Dataset) (country : Str) (weight : ℚ) : FindRatesOutput :=
  { results := List.insertionSort rateLE
      ((aggregate ds (normalize ds country) weight
          (resolveZones ds (normalize ds country))).filter ratePos),
    excluded :=
      (aggregate ds (normalize ds country) weight
          (resolveZones ds (normalize ds country))).filter (fun r => ! ratePos r),
    zone_mappings := resolveZones ds (normalize ds country) }

def findRates (ds : Dataset) (country : Str) (weight : ℚ) :
    Except FindRatesError FindRatesOutput :=
  if weight ≤ 0 ∨ strTrim country = [] then
    Except.error FindRatesError.InvalidInput
  else
    Except.ok (findRatesOk ds country weight)

/-! Frontend embeddings, translated from the sources under src/. -/

/-- A JSON-serializable JavaScript value, as handled by the frontend. -/
inductive JsValue where
  | null
  | bool (b : Bool)
  | num (q : ℚ)
  | str (s : String)
  | arr (xs : List JsValue)
  | obj (fields : List (String × JsValue))

/-- Null test on a JSON value. -/
def isNull : JsValue → Bool
  | JsValue.null => true
  | _ => false

/-- JavaScript truthiness of a JSON value (NaN does not occur in JSON). -/
def truthy : JsValue → Bool
  | JsValue.null => false
  | JsValue.bool b => b
  | JsValue.num q => decide (q ≠ 0)
  | JsValue.str s => decide (s ≠ "")
  | JsValue.arr _ => true
  | JsValue.obj _ => true

/-- JavaScript property access on a JSON value: objects yield their first
field of the given name, every other value yields undefined (none). -/
def getField : JsValue → String → Option JsValue
  | JsValue.obj fs, k => (fs.find? (fun p => decide (p.1 = k))).map Prod.snd
  | _, _ => none

/-- Truthiness of `v.results`-style accesses (undefined is falsy). -/
def fieldTruthy (v : JsValue) (k : String) : Bool :=
  match getField v k with
  | some f => truthy f
  | none => false

/-- Decimal-or-fraction rendering of a rational, standing in for the
JavaScript number-to-string conversion inside JSON.stringify. -/
def ratStr (q : ℚ) : String :=
  if q.den = 1 then toString q.num else toString q.num ++ "/" ++ toString q.den

mutual

/-- JSON.stringify on a JSON value (string escaping not modelled; no claim
depends on the rendered text). -/
def jsonStringify : JsValue → String
  | JsValue.null => "null"
  | JsValue.bool true => "true"
  | JsValue.bool false => "false"
  | JsValue.num q => ratStr q
  | JsValue.str s => "\"" ++ s ++ "\""
  | JsValue.arr xs => "[" ++ jsonStringifyList xs ++ "]"
  | JsValue.obj fs => "\x7b" ++ jsonStringifyFields fs ++ "\x7d"

/-- Comma-separated rendering of array elements. -/
def jsonStringifyList : List JsValue → String
  | [] => ""
  | [x] => jsonStringify x
  | x :: y :: xs => jsonStringify x ++ "," ++ jsonStringifyList (y :: xs)

/-- Comma-separated rendering of object fields. -/
def jsonStringifyFields : List (String × JsValue) → String
  | [] => ""
  | [p] => "\"" ++ p.1 ++ "\":" ++ jsonStringify p.2
  | p :: q :: fs => "\"" ++ p.1 ++ "\":" ++ jsonStringify p.2 ++ "," ++ jsonStringifyFields (q :: fs)

end

/-- The fallback object built by parseResponse when the response shape is
unexpected (src/components/RateFinder.tsx lines 50-51). -/
def parseResponseFallback (v : JsValue) : JsValue :=
  JsValue.obj [("results", JsValue.arr []), ("raw_response", JsValue.str (jsonStringify v))]

/-- parseResponse from src/components/RateFinder.tsx lines 44-52 (identical in
frontend/src/App.js lines 38-46): returns the response unchanged when it is
truthy and has a truthy results property, otherwise wraps it into a fallback
object carrying the raw JSON text. -/
def parseResponse (v : JsValue) : JsValue :=
  if truthy v && fieldTruthy v "results" then v
  else parseResponseFallback v

/-- The booking-form state of src/components/DataEntry.tsx lines 23-41; the
three price and weight fields hold raw input text, basePrice is numeric. -/
structure FormData where
  customerName : String
  customerPhone : String
  customerAadhar : String
  customerPAN : String
  destinationCountry : String
  parcelWeight : String
  selectedCourier : String
  selectedService : String
  basePrice : ℚ
  priceToCustomer : String
  ourCost : String

/-- The bookings row built by handleSubmit (src/components/DataEntry.tsx
lines 75-90). -/
structure BookingInsert where
  booking_id : String
  customer_name : String
  customer_phone : String
  customer_aadhar : Option String
  customer_pan : Option String
  destination_country : String
  parcel_weight : ℚ
  selected_courier : String
  selected_service : String
  base_price : ℚ
  price_to_customer : ℚ
  our_cost : ℚ
  status : String
  created_at : String

/-- JavaScript parseFloat on the raw field text: skips leading whitespace,
reads an optional sign and a decimal digit string with an optional fractional
part, and yields none (NaN) when no digit is read.  Exponent suffixes are not
modelled; they never make a NaN out of a parsed prefix, so the none case is
unaffected. -/
def jsParseFloat (s : String) : Option ℚ :=
  let t := s.toList.dropWhile isSpaceChar
  let signed : ℚ × List Char :=
    match t with
    | '-' :: r => (-1, r)
    | '+' :: r => (1, r)
    | _ => (1, t)
  let ip := signed.2.takeWhile Char.isDigit
  let r1 := signed.2.dropWhile Char.isDigit
  let fp :=
    match r1 with
    | '.' :: r2 => r2.takeWhile Char.isDigit
    | _ => []
  if ip = [] ∧ fp = [] then none
  else
    some (signed.1 *
      ((ip.foldl (fun a c => a * 10 + (c.toNat - 48)) 0 : ℕ) +
        (fp.foldl (fun a c => a * 10 + (c.toNat - 48)) 0 : ℕ) / (10 ^ fp.length : ℚ)))

/-- The `parseFloat(x) || 0` idiom of handleSubmit: both NaN and 0 collapse
to 0 (src/components/DataEntry.tsx lines 82, 86, 87). -/
def parseFloatOr0 (s : String) : ℚ :=
  (jsParseFloat s).getD 0

/-- handleSubmit's booking construction (src/components/DataEntry.tsx lines
70-90): the generated booking id and timestamp are passed in; empty optional
documents become absent; the three text-number fields go through
`parseFloat(...) || 0`. -/
def mkBookingData (bookingId createdAt : String) (f : FormData) : BookingInsert :=
  { booking_id := bookingId,
    customer_name := f.customerName,
    customer_phone := f.customerPhone,
    customer_aadhar := if f.customerAadhar = "" then none else some f.customerAadhar,
    customer_pan := if f.customerPAN = "" then none else some f.customerPAN,
    destination_country := f.destinationCountry,
    parcel_weight := parseFloatOr0 f.parcelWeight,
    selected_courier := f.selectedCourier,
    selected_service := f.selectedService,
    base_price := f.basePrice,
    price_to_customer := parseFloatOr0 f.priceToCustomer,
    our_cost := parseFloatOr0 f.ourCost,
    status := "Booked",
    created_at := createdAt }

/-! Concrete data used by the claim witnesses. -/

/-- A dataset with no coverage at all. -/
def emptyDataset : Dataset :=
  { rate_entries := [], zone_mappings := [], aliases := [], countries := [], carriers := [] }

/-- Service-type constant of the witness data. -/
def wService : Str := ['E', 'x', 'p']

/-- Currency constant of the witness data. -/
def wCurrency : Str := ['I', 'N', 'R']

/-- Witness country key. -/
def wCountry : Str := ['d', 'e']

/-- Witness zone token. -/
def wZoneTok : Str := ['Z']

/-- The spec's section 8 example tier list (tiers 1, 2, 3, 5 kg). -/
def c1Entries : List RateEntry :=
  [⟨fedexName, wCountry, wService, 1, 500, wCurrency⟩,
   ⟨fedexName, wCountry, wService, 2, 800, wCurrency⟩,
   ⟨fedexName, wCountry, wService, 3, 1100, wCurrency⟩,
   ⟨fedexName, wCountry, wService, 5, 1500, wCurrency⟩]

/-- A country-keyed entry that duplicates `dupEntryZone` up to provenance. -/
def dupEntryDirect : RateEntry := ⟨fedexName, wCountry, wService, 2, 100, wCurrency⟩

/-- A zone-keyed entry that duplicates `dupEntryDirect` up to provenance. -/
def dupEntryZone : RateEntry := ⟨fedexName, wZoneTok, wService, 2, 100, wCurrency⟩

/-- Zone mapping sending the witness country to the witness FedEx zone. -/
def wZoneMap : ZoneMapping := ⟨wCountry, some wZoneTok, none, none⟩

/-- A dataset on which the direct and the zone path produce identical
carrier, service type and final rate. -/
def dupDataset : Dataset :=
  ⟨[dupEntryDirect, dupEntryZone], [wZoneMap], [], [wCountry], [fedexName]⟩

/-- The direct-tagged match the duplicate witness keeps. -/
def dupDirectResult : MatchResult :=
  toMatchResult wCountry none MatchType.direct dupEntryDirect

/-- The zone-tagged match the duplicate witness drops. -/
def dupZoneResult : MatchResult :=
  toMatchResult wCountry (some wZoneTok) MatchType.zone_based dupEntryZone

/-- A dataset with one alias (us to Usa) and one known country name. -/
def aliasDataset : Dataset :=
  { rate_entries := [], zone_mappings := [],
    aliases := [(['u', 's'], ['U', 's', 'a'])],
    countries := [['U', 's', 'a']], carriers := [] }

/-- A booking form whose three numeric text fields do not parse as numbers. -/
def exForm : FormData :=
  { customerName := "a", customerPhone := "1", customerAadhar := "",
    customerPAN := "", destinationCountry := "de", parcelWeight := "abc",
    selectedCourier := "fx", selectedService := "s", basePrice := 5,
    priceToCustomer := "", ourCost := "kg12" }

/-! Supporting lemmas. -/

theorem bestMatchCore_mem (n : Str) (l : List Str) : bestMatchCore n l ∈ n :: l := by
  induction l generalizing n with
  | nil => simp [bestMatchCore]
  | cons m ms ih =>
      rw [bestMatchCore]
      by_cases hlen : n.length < (bestMatchCore m ms).length
      · rw [if_pos hlen]
        exact List.mem_cons_of_mem n (ih m)
      · rw [if_neg hlen]
        exact List.mem_cons_self n (m :: ms)

theorem bestMatch_mem {l : List Str} {c : Str} (h : bestMatch l = some c) : c ∈ l := by
  cases l with
  | nil => simp [bestMatch] at h
  | cons n ns =>
      rw [bestMatch] at h
      exact (Option.some.inj h) ▸ bestMatchCore_mem n ns

theorem dropWhile_rdropWhile_of_clean {α : Type} (p : α → Bool) (u : List α)
    (hu : List.dropWhile p u = u) :
    List.dropWhile p (List.rdropWhile p u) = List.rdropWhile p u := by
  rw [List.dropWhile_eq_self_iff]
  intro hl
  obtain ⟨t, ht⟩ := List.rdropWhile_prefix p u
  have hlu : 0 < u.length := by
    rw [← ht, List.length_append]
    exact lt_of_lt_of_le hl (Nat.le_add_right _ _)
  have hhead := (List.dropWhile_eq_self_iff.mp hu) hlu
  have h0 : u[0]? = (List.rdropWhile p u)[0]? := by
    conv_lhs => rw [← ht]
    rw [List.getElem?_append, if_pos hl]
  have hsame : (List.rdropWhile p u).get ⟨0, hl⟩ = u.get ⟨0, hlu⟩ := by
    have := (List.getElem?_eq_getElem hlu).symm.trans
      (h0.trans (List.getElem?_eq_getElem hl))
    simpa using this.symm
  rw [hsame]
  exact hhead

theorem strTrim_idem (s : Str) : strTrim (strTrim s) = strTrim s := by
  unfold strTrim
  rw [dropWhile_rdropWhile_of_clean isSpaceChar (List.dropWhile isSpaceChar s)
      (List.dropWhile_idempotent isSpaceChar s),
    List.rdropWhile_idempotent]

/-! Claim theorems. -/

/-- C1: for every requested weight w greater than 0 and every tier-ordered
list of rate entries, `matchTier` returns an entry of the list whose weight
tier is at least w and minimal among all tiers at least w, and it returns
none exactly when w exceeds every weight tier of the list. -/
theorem matchTier_ceiling_correct (entries : List RateEntry) (w : ℚ) (hw : 0 < w)
    (hs : entries.Pairwise tierLE) :
    (∀ e, matchTier entries w = some e →
        e ∈ entries ∧ w ≤ e.weight_tier ∧
          ∀ f ∈ entries, w ≤ f.weight_tier → e.weight_tier ≤ f.weight_tier) ∧
    (matchTier entries w = none ↔ ∀ f ∈ entries, f.weight_tier < w) := by
  revert hs
  induction entries with
  | nil =>
      intro _
      exact ⟨fun e he => by simp [matchTier] at he, by simp [matchTier]⟩
  | cons a l ih =>
      intro hs
      have hpair := List.pairwise_cons.mp hs
      by_cases hcmp : w ≤ a.weight_tier
      · refine ⟨?_, ?_⟩
        · intro e he
          simp only [matchTier, if_pos hcmp] at he
          obtain rfl : a = e := Option.some.inj he
          refine ⟨List.mem_cons_self a l, hcmp, ?_⟩
          intro f hf _
          rcases List.mem_cons.mp hf with rfl | hfl
          · exact le_refl _
          · exact hpair.1 f hfl
        · simp only [matchTier, if_pos hcmp]
          constructor
          · intro h
            exact absurd h (by simp)
          · intro hall
            exact absurd hcmp (not_le.mpr (hall a (List.mem_cons_self a l)))
      · have ha : a.weight_tier < w := not_le.mp hcmp
        obtain ⟨ih1, ih2⟩ := ih hpair.2
        refine ⟨?_, ?_⟩
        · intro e he
          simp only [matchTier, if_neg hcmp] at he
          obtain ⟨hmem, hle, hmin⟩ := ih1 e he
          refine ⟨List.mem_cons_of_mem a hmem, hle, ?_⟩
          intro f hf hwf
          rcases List.mem_cons.mp hf with rfl | hfl
          · exact absurd hwf hcmp
          · exact hmin f hfl hwf
        · simp only [matchTier, if_neg hcmp]
          rw [ih2]
          constructor
          · intro hall f hf
            rcases List.mem_cons.mp hf with rfl | hfl
            · exact ha
            · exact hall f hfl
          · intro hall f hf
            exact hall f (List.mem_cons_of_mem a hf)

/-- Witness for C1 on the section 8 tier list 1, 2, 3, 5 at weight 2. -/
theorem matchTier_ceiling_correct_witness :
    (0:ℚ) < 2 ∧ c1Entries.Pairwise tierLE ∧
      ((∀ e, matchTier c1Entries 2 = some e →
          e ∈ c1Entries ∧ (2:ℚ) ≤ e.weight_tier ∧
            ∀ f ∈ c1Entries, (2:ℚ) ≤ f.weight_tier → e.weight_tier ≤ f.weight_tier) ∧
        (matchTier c1Entries 2 = none ↔ ∀ f ∈ c1Entries, f.weight_tier < 2)) :=
  ⟨by norm_num, by decide, matchTier_ceiling_correct c1Entries 2 (by norm_num) (by decide)⟩

/-- C2: a request with non-positive weight or an empty or all-whitespace
country fails with InvalidInput and yields no MatchResults at all. -/
theorem findRates_invalid_input (ds : Dataset) (country : Str) (w : ℚ)
    (h : w ≤ 0 ∨ strTrim country = []) :
    findRates ds country w = Except.error FindRatesError.InvalidInput ∧
      ∀ out, findRates ds country w ≠ Except.ok out := by
  have h1 : findRates ds country w = Except.error FindRatesError.InvalidInput := by
    unfold findRates
    exact if_pos h
  refine ⟨h1, fun out hok => ?_⟩
  rw [h1] at hok
  exact Except.noConfusion hok

/-- Witness for C2 at weight 0. -/
theorem findRates_invalid_input_witness :
    ((0:ℚ) ≤ 0 ∨ strTrim ['x'] = []) ∧
      (findRates emptyDataset ['x'] 0 = Except.error FindRatesError.InvalidInput ∧
        ∀ out, findRates emptyDataset ['x'] 0 ≠ Except.ok out) :=
  ⟨Or.inl (le_refl 0), findRates_invalid_input emptyDataset ['x'] 0 (Or.inl (le_refl 0))⟩

/-- C8: `findRates` is deterministic; with the dataset fixed, equal country
and weight inputs give equal outputs (it is a pure function of its inputs). -/
theorem findRates_deterministic (ds : Dataset) (c1 c2 : Str) (w1 w2 : ℚ)
    (hc : c1 = c2) (hw : w1 = w2) :
    findRates ds c1 w1 = findRates ds c2 w2 := by
  rw [hc, hw]

/-- Witness for C8 on a concrete repeated request. -/
theorem findRates_deterministic_witness :
    ['g'] = ['g'] ∧ (1:ℚ) = 1 ∧
      findRates emptyDataset ['g'] 1 = findRates emptyDataset ['g'] 1 :=
  ⟨rfl, rfl, findRates_deterministic emptyDataset ['g'] ['g'] 1 1 rfl rfl⟩

/-- C9: parseResponse returns its input exactly when the input is non-null
and has a truthy results property, and otherwise returns the fallback object
with an empty results array and the stringified input; either way the result
has a results field.  It is a total function of the JSON value. -/
theorem parseResponse_characterization (v : JsValue) :
    (parseResponse v =
      if isNull v = false ∧ fieldTruthy v "results" = true then v
      else parseResponseFallback v) ∧
    (getField (parseResponse v) "results").isSome = true := by
  have hft : fieldTruthy v "results" = true → truthy v = true := by
    intro h
    cases v <;> simp_all [fieldTruthy, getField, truthy]
  have hnull : truthy v = true → isNull v = false := by
    intro h
    cases v <;> simp_all [truthy, isNull]
  constructor
  · by_cases hf : fieldTruthy v "results" = true
    · have ht := hft hf
      have hn := hnull ht
      simp [parseResponse, ht, hf, hn]
    · have hf' : fieldTruthy v "results" = false := by
        simpa using hf
      simp [parseResponse, hf']
  · by_cases hf : fieldTruthy v "results" = true
    · have ht := hft hf
      have hpr : parseResponse v = v := by simp [parseResponse, ht, hf]
      rw [hpr]
      unfold fieldTruthy at hf
      rcases hg : getField v "results" with _ | f
      · rw [hg] at hf
        simp at hf
      · simp
    · have hf' : fieldTruthy v "results" = false := by
        simpa using hf
      have hpr : parseResponse v = parseResponseFallback v := by
        simp [parseResponse, hf']
      rw [hpr]
      rfl

/-- C10: on booking submission, each of the parcel-weight, price-to-customer
and our-cost fields whose text does not parse as a number is stored as 0 in
the booking record; the record is built for every form state, never
rejected. -/
theorem dataEntry_unparsed_fields_zero (bid ts : String) (f : FormData) :
    (jsParseFloat f.parcelWeight = none → (mkBookingData bid ts f).parcel_weight = 0) ∧
    (jsParseFloat f.priceToCustomer = none → (mkBookingData bid ts f).price_to_customer = 0) ∧
    (jsParseFloat f.ourCost = none → (mkBookingData bid ts f).our_cost = 0) := by
  refine ⟨fun h => ?_, fun h => ?_, fun h => ?_⟩ <;>
    simp [mkBookingData, parseFloatOr0, h]

/-- Witness for C10 on a form whose three numeric fields are non-numeric. -/
theorem dataEntry_unparsed_fields_zero_witness :
    (mkBookingData "b" "t" exForm).parcel_weight = 0 ∧
      (mkBookingData "b" "t" exForm).price_to_customer = 0 ∧
      (mkBookingData "b" "t" exForm).our_cost = 0 :=
  ⟨(dataEntry_unparsed_fields_zero "b" "t" exForm).1 (by rfl),
   (dataEntry_unparsed_fields_zero "b" "t" exForm).2.1 (by rfl),
   (dataEntry_unparsed_fields_zero "b" "t" exForm).2.2 (by rfl)⟩

/-- C6: when neither the alias table nor substring matching in either
direction finds a match, `normalize` returns the trimmed input unchanged; it
is a total function of its input and always returns a string. -/
theorem normalize_total_no_match (ds : Dataset) (x : Str)
    (ha : ∀ p ∈ ds.aliases, p.1 ≠ fold (strTrim x))
    (hc : ∀ n ∈ ds.countries,
        isSub (fold (strTrim x)) (fold n) = false ∧
          isSub (fold n) (fold (strTrim x)) = false) :
    normalize ds x = strTrim x := by
  have hf : List.find? (fun p => decide (p.1 = fold (strTrim x))) ds.aliases = none :=
    List.find?_eq_none.mpr (fun p hp => by simpa using ha p hp)
  have h1 : lookupAlias ds.aliases (fold (strTrim x)) = none := by
    simp [lookupAlias, hf]
  have h2 : substrMatches ds.countries (fold (strTrim x)) = [] := by
    unfold substrMatches
    refine List.filter_eq_nil_iff.mpr (fun n hn => ?_)
    simp [(hc n hn).1, (hc n hn).2]
  unfold normalize
  rw [h1, h2]
  rfl

/-- Witness for C6 on an input with no alias and no substring match. -/
theorem normalize_total_no_match_witness :
    (∀ p ∈ aliasDataset.aliases, p.1 ≠ fold (strTrim ['z', 'z'])) ∧
      (∀ n ∈ aliasDataset.countries,
        isSub (fold (strTrim ['z', 'z'])) (fold n) = false ∧
          isSub (fold n) (fold (strTrim ['z', 'z'])) = false) ∧
      normalize aliasDataset ['z', 'z'] = strTrim ['z', 'z'] :=
  ⟨by decide, by decide,
   normalize_total_no_match aliasDataset ['z', 'z'] (by decide) (by decide)⟩

/-- C5: on a dataset whose alias targets and known country names are
themselves canonical (they normalize to themselves, the spec's data-model
invariant), `normalize` is idempotent; in particular an already-canonical
name is returned unchanged. -/
theorem normalize_idempotent (ds : Dataset)
    (ha : ∀ p ∈ ds.aliases, normalize ds p.2 = p.2)
    (hc : ∀ n ∈ ds.countries, normalize ds n = n)
    (x : Str) :
    normalize ds (normalize ds x) = normalize ds x := by
  rcases he : lookupAlias ds.aliases (fold (strTrim x)) with _ | c
  · rcases hb : bestMatch (substrMatches ds.countries (fold (strTrim x))) with _ | c
    · have hx : normalize ds x = strTrim x := by
        unfold normalize
        rw [he, hb]
      rw [hx]
      unfold normalize
      rw [strTrim_idem]
      rw [he, hb]
    · have hx : normalize ds x = c := by
        unfold normalize
        rw [he, hb]
      rw [hx]
      have hmem : c ∈ substrMatches ds.countries (fold (strTrim x)) := bestMatch_mem hb
      unfold substrMatches at hmem
      exact hc c (List.mem_filter.mp hmem).1
  · have hx : normalize ds x = c := by
      unfold normalize
      rw [he]
    rw [hx]
    unfold lookupAlias at he
    rcases Option.map_eq_some'.mp he with ⟨p, hfind, hpc⟩
    exact hpc ▸ ha p (List.mem_of_find?_eq_some hfind)

/-- Witness for C5: normalizing US twice equals normalizing it once. -/
theorem normalize_idempotent_witness :
    (∀ p ∈ aliasDataset.aliases, normalize aliasDataset p.2 = p.2) ∧
      (∀ n ∈ aliasDataset.countries, normalize aliasDataset n = n) ∧
      normalize aliasDataset (normalize aliasDataset ['U', 'S']) =
        normalize aliasDataset ['U', 'S'] :=
  ⟨by decide, by decide,
   normalize_idempotent aliasDataset (by decide) (by decide) ['U', 'S']⟩

/-- C7: valid input never raises an error, and a country with no dataset
coverage at all (no rate entry keyed by it, no zone mapping for it) yields
an empty result list; missing coverage only reduces the result count. -/
theorem findRates_no_coverage (ds : Dataset) (country : Str) (w : ℚ)
    (hw : 0 < w) (hc : strTrim country ≠ []) :
    (∃ out, findRates ds country w = Except.ok out) ∧
    ((∀ e ∈ ds.rate_entries, e.country_or_zone_key ≠ normalize ds country) →
      (∀ z ∈ ds.zone_mappings, z.country ≠ normalize ds country) →
        findRates ds country w = Except.ok (findRatesOk ds country w) ∧
          (findRatesOk ds country w).results = [] ∧
          (findRatesOk ds country w).excluded = []) := by
  have hcond : ¬ (w ≤ 0 ∨ strTrim country = []) := by
    push_neg
    exact ⟨hw, hc⟩
  have hok : findRates ds country w = Except.ok (findRatesOk ds country w) := by
    unfold findRates
    rw [if_neg hcond]
  refine ⟨⟨_, hok⟩, fun h1 h2 => ?_⟩
  have hzm : resolveZones ds (normalize ds country) = emptyZones (normalize ds country) := by
    unfold resolveZones
    rw [List.find?_eq_none.mpr (fun z hz => by simpa using h2 z hz)]
  have hlook : ∀ k : Str, lookup ds k (normalize ds country) = [] := by
    intro k
    have hfil : ds.rate_entries.filter
        (fun e => decide (e.carrier = k) &&
          decide (e.country_or_zone_key = normalize ds country)) = [] :=
      List.filter_eq_nil_iff.mpr (fun e he => by
        simp only [Bool.and_eq_true, decide_eq_true_eq, not_and]
        exact fun _ => h1 e he)
    unfold lookup
    rw [hfil]
    rfl
  have hdr : directResults ds (normalize ds country) w = [] := by
    unfold directResults
    refine List.filterMap_eq_nil_iff.mpr (fun k _ => ?_)
    rw [hlook k]
    rfl
  have hzr : zoneResults ds (normalize ds country) w
      (emptyZones (normalize ds country)) = [] := by
    unfold zoneResults
    refine List.filterMap_eq_nil_iff.mpr (fun k _ => ?_)
    simp [zoneToken, emptyZones]
  have hagg : aggregate ds (normalize ds country) w
      (emptyZones (normalize ds country)) = [] := by
    unfold aggregate
    rw [hdr, hzr]
    rfl
  refine ⟨hok, ?_, ?_⟩
  · show (findRatesOk ds country w).results = []
    unfold findRatesOk
    rw [hzm, hagg]
    rfl
  · show (findRatesOk ds country w).excluded = []
    unfold findRatesOk
    rw [hzm, hagg]
    rfl

/-- Witness for C7 on an uncovered country over a non-trivial dataset. -/
theorem findRates_no_coverage_witness :
    (0:ℚ) < 1 ∧ strTrim ['q', 'q'] ≠ [] ∧
      (findRatesOk dupDataset ['q', 'q'] 1).results = [] ∧
      (findRatesOk dupDataset ['q', 'q'] 1).excluded = [] :=
  ⟨by norm_num, by decide,
   ((findRates_no_coverage dupDataset ['q', 'q'] 1 (by norm_num) (by decide)).2
      (by decide) (by decide)).2.1,
   ((findRates_no_coverage dupDataset ['q', 'q'] 1 (by norm_num) (by decide)).2
      (by decide) (by decide)).2.2⟩

theorem mem_of_mem_dedupAux {seen : List (Str × Str × ℚ)} {l : List MatchResult}
    {r : MatchResult} (h : r ∈ dedupAux seen l) : r ∈ l := by
  induction l generalizing seen with
  | nil => simp [dedupAux] at h
  | cons a rs ih =>
      rw [dedupAux] at h
      by_cases hm : resultKey a ∈ seen
      · rw [if_pos hm] at h
        exact List.mem_cons_of_mem a (ih h)
      · rw [if_neg hm] at h
        rcases List.mem_cons.mp h with rfl | h2
        · exact List.mem_cons_self _ _
        · exact List.mem_cons_of_mem a (ih h2)

theorem key_notin_seen_of_mem_dedupAux {seen : List (Str × Str × ℚ)}
    {l : List MatchResult} {r : MatchResult} (h : r ∈ dedupAux seen l) :
    resultKey r ∉ seen := by
  induction l generalizing seen with
  | nil => simp [dedupAux] at h
  | cons a rs ih =>
      rw [dedupAux] at h
      by_cases hm : resultKey a ∈ seen
      · rw [if_pos hm] at h
        exact ih h
      · rw [if_neg hm] at h
        rcases List.mem_cons.mp h with rfl | h2
        · exact hm
        · exact fun hc => (ih h2) (List.mem_cons_of_mem _ hc)

theorem countP_dedupAux_of_mem_seen {seen : List (Str × Str × ℚ)}
    (l : List MatchResult) {k : Str × Str × ℚ} (hk : k ∈ seen) :
    (dedupAux seen l).countP (fun s => decide (resultKey s = k)) = 0 := by
  rw [List.countP_eq_zero]
  intro a ha
  simp only [decide_eq_true_eq]
  intro heq
  exact key_notin_seen_of_mem_dedupAux ha (heq ▸ hk)

theorem countP_dedupAux (l : List MatchResult) (seen : List (Str × Str × ℚ))
    (k : Str × Str × ℚ) (hk : k ∉ seen) :
    (dedupAux seen l).countP (fun s => decide (resultKey s = k)) =
      if l.any (fun r => decide (resultKey r = k)) then 1 else 0 := by
  induction l generalizing seen with
  | nil => simp [dedupAux]
  | cons a rs ih =>
      rw [dedupAux]
      by_cases hm : resultKey a ∈ seen
      · rw [if_pos hm]
        have hka : resultKey a ≠ k := fun h => hk (h ▸ hm)
        rw [ih seen hk]
        simp [List.any_cons, hka]
      · rw [if_neg hm]
        rw [List.countP_cons]
        by_cases hak : resultKey a = k
        · have hmem : k ∈ resultKey a :: seen := hak ▸ List.mem_cons_self _ _
          rw [countP_dedupAux_of_mem_seen rs hmem]
          simp [List.any_cons, hak]
        · have hk2 : k ∉ resultKey a :: seen := by
            intro hmem
            rcases List.mem_cons.mp hmem with h | h
            · exact hak h.symm
            · exact hk h
          rw [ih _ hk2]
          simp [List.any_cons, hak]

theorem find?_eq_some_of_mem_dedupAux {seen : List (Str × Str × ℚ)}
    {l : List MatchResult} {r : MatchResult} (h : r ∈ dedupAux seen l) :
    l.find? (fun s => decide (resultKey s = resultKey r)) = some r := by
  induction l generalizing seen with
  | nil => simp [dedupAux] at h
  | cons a rs ih =>
      rw [dedupAux] at h
      by_cases hm : resultKey a ∈ seen
      · rw [if_pos hm] at h
        have hnr := key_notin_seen_of_mem_dedupAux h
        have hne : resultKey a ≠ resultKey r := fun he => hnr (he ▸ hm)
        rw [List.find?_cons_of_neg _ (by simp [hne]), ih h]
      · rw [if_neg hm] at h
        rcases List.mem_cons.mp h with rfl | h2
        · rw [List.find?_cons_of_pos _ (by simp)]
        · have hnr := key_notin_seen_of_mem_dedupAux h2
          have hne : resultKey a ≠ resultKey r := fun he =>
            hnr (he ▸ List.mem_cons_self _ _)
          rw [List.find?_cons_of_neg _ (by simp [hne]), ih h2]

theorem countP_and_split (p q : MatchResult → Bool) (l : List MatchResult) :
    (l.filter q).countP p + (l.filter (fun a => ! q a)).countP p = l.countP p := by
  induction l with
  | nil => simp
  | cons a rs ih =>
      by_cases hq : q a <;> by_cases hp : p a <;>
        simp [List.filter_cons, hq, hp, List.countP_cons, ← ih] <;> omega

theorem match_type_of_mem_directResults {ds : Dataset} {c : Str} {w : ℚ}
    {r : MatchResult} (h : r ∈ directResults ds c w) :
    r.match_type = MatchType.direct := by
  unfold directResults at h
  rcases List.mem_filterMap.mp h with ⟨k, _, hmap⟩
  rcases Option.map_eq_some'.mp hmap with ⟨e, _, rfl⟩
  rfl

/-- C3: every successful `findRates` output has its primary results sorted
with non-decreasing final rates, and no primary result has a final rate at
or below zero. -/
theorem findRates_sorted_positive (ds : Dataset) (country : Str) (w : ℚ)
    (out : FindRatesOutput) (hout : findRates ds country w = Except.ok out) :
    out.results.Pairwise (fun a b : MatchResult => a.final_rate ≤ b.final_rate) ∧
      ∀ r ∈ out.results, 0 < r.final_rate := by
  unfold findRates at hout
  by_cases hcond : (w ≤ 0 ∨ strTrim country = [])
  · rw [if_pos hcond] at hout
    exact absurd hout (by simp)
  · rw [if_neg hcond] at hout
    injection hout with hout2
    subst hout2
    constructor
    · have hs := List.sorted_insertionSort rateLE
        ((aggregate ds (normalize ds country) w
            (resolveZones ds (normalize ds country))).filter ratePos)
      exact List.Pairwise.imp (fun h => h) hs
    · intro r hr
      have hr2 : r ∈ (aggregate ds (normalize ds country) w
          (resolveZones ds (normalize ds country))).filter ratePos :=
        (List.mem_insertionSort rateLE).mp hr
      have := List.of_mem_filter hr2
      simpa [ratePos] using this

/-- Witness for C3 on the duplicate dataset at weight 2. -/
theorem findRates_sorted_positive_witness :
    findRates dupDataset wCountry 2 =
        Except.ok (findRatesOk dupDataset wCountry 2) ∧
      ((findRatesOk dupDataset wCountry 2).results.Pairwise
          (fun a b : MatchResult => a.final_rate ≤ b.final_rate) ∧
        ∀ r ∈ (findRatesOk dupDataset wCountry 2).results, 0 < r.final_rate) :=
  ⟨rfl, findRates_sorted_positive dupDataset wCountry 2
    (findRatesOk dupDataset wCountry 2) rfl⟩

/-- C4: when the direct path and the zone path of a request both produce a
match with the same carrier, service type and final rate, the output of
`findRates` keeps exactly one match with that identity (in the primary list
when its rate is positive), and every such kept match is tagged direct. -/
theorem findRates_dedup_direct (ds : Dataset) (country : Str) (w : ℚ)
    (out : FindRatesOutput) (d z : MatchResult)
    (hout : findRates ds country w = Except.ok out)
    (hd : d ∈ directResults ds (normalize ds country) w)
    (hz : z ∈ zoneResults ds (normalize ds country) w
        (resolveZones ds (normalize ds country)))
    (hkey : resultKey z = resultKey d) :
    (out.results ++ out.excluded).countP
        (fun r => decide (resultKey r = resultKey d)) = 1 ∧
      (0 < d.final_rate →
        out.results.countP (fun r => decide (resultKey r = resultKey d)) = 1) ∧
      ∀ r ∈ out.results ++ out.excluded,
        resultKey r = resultKey d → r.match_type = MatchType.direct := by
  unfold findRates at hout
  by_cases hcond : (w ≤ 0 ∨ strTrim country = [])
  · rw [if_pos hcond] at hout
    exact absurd hout (by simp)
  · rw [if_neg hcond] at hout
    injection hout with hout2
    subst hout2
    have hdL : d ∈ directResults ds (normalize ds country) w ++
        zoneResults ds (normalize ds country) w
          (resolveZones ds (normalize ds country)) :=
      List.mem_append_left _ hd
    have hany : (directResults ds (normalize ds country) w ++
        zoneResults ds (normalize ds country) w
          (resolveZones ds (normalize ds country))).any
        (fun r => decide (resultKey r = resultKey d)) = true :=
      List.any_eq_true.mpr ⟨d, hdL, by simp⟩
    have hcount_agg : (aggregate ds (normalize ds country) w
        (resolveZones ds (normalize ds country))).countP
        (fun r => decide (resultKey r = resultKey d)) = 1 := by
      unfold aggregate dedupByKey
      rw [countP_dedupAux _ [] _ (by simp), if_pos hany]
    have hrep : ∀ r ∈ aggregate ds (normalize ds country) w
        (resolveZones ds (normalize ds country)),
        resultKey r = resultKey d → r.match_type = MatchType.direct := by
      intro r hrA hkr
      have hrA2 : r ∈ dedupAux [] (directResults ds (normalize ds country) w ++
          zoneResults ds (normalize ds country) w
            (resolveZones ds (normalize ds country))) := hrA
      have hfind : (directResults ds (normalize ds country) w ++
          zoneResults ds (normalize ds country) w
            (resolveZones ds (normalize ds country))).find?
          (fun s => decide (resultKey s = resultKey d)) = some r := by
        rw [← hkr]
        exact find?_eq_some_of_mem_dedupAux hrA2
      have hDsome : ((directResults ds (normalize ds country) w).find?
          (fun s => decide (resultKey s = resultKey d))).isSome = true :=
        List.find?_isSome.mpr ⟨d, hd, by simp⟩
      rcases Option.isSome_iff_exists.mp hDsome with ⟨s, hs⟩
      rw [List.find?_append, hs] at hfind
      have hsr : s = r := Option.some.inj hfind
      subst hsr
      exact match_type_of_mem_directResults (List.mem_of_find?_eq_some hs)
    have hresults : (findRatesOk ds country w).results =
        List.insertionSort rateLE ((aggregate ds (normalize ds country) w
          (resolveZones ds (normalize ds country))).filter ratePos) := rfl
    have hexcluded : (findRatesOk ds country w).excluded =
        (aggregate ds (normalize ds country) w
          (resolveZones ds (normalize ds country))).filter (fun r => ! ratePos r) := rfl
    have hres_count : (findRatesOk ds country w).results.countP
        (fun r => decide (resultKey r = resultKey d)) =
        ((aggregate ds (normalize ds country) w
          (resolveZones ds (normalize ds country))).filter ratePos).countP
        (fun r => decide (resultKey r = resultKey d)) := by
      rw [hresults]
      exact List.Perm.countP_eq _ (List.perm_insertionSort rateLE _)
    have hsplit : (findRatesOk ds country w).results.countP
        (fun r => decide (resultKey r = resultKey d)) +
        (findRatesOk ds country w).excluded.countP
        (fun r => decide (resultKey r = resultKey d)) = 1 := by
      rw [hres_count, hexcluded, countP_and_split, hcount_agg]
    refine ⟨?_, ?_, ?_⟩
    · rw [List.countP_append]
      exact hsplit
    · intro hpos
      have hexc0 : (findRatesOk ds country w).excluded.countP
          (fun r => decide (resultKey r = resultKey d)) = 0 := by
        rw [hexcluded, List.countP_eq_zero]
        intro r hr
        simp only [decide_eq_true_eq]
        intro hkr
        have hnp := (List.mem_filter.mp hr).2
        have hfr : r.final_rate = d.final_rate :=
          (by simpa [resultKey, Prod.ext_iff] using hkr :
            r.carrier = d.carrier ∧ r.service_type = d.service_type ∧
              r.final_rate = d.final_rate).2.2
        simp [ratePos, hfr, hpos] at hnp
      omega
    · intro r hr hkr
      rcases List.mem_append.mp hr with hr1 | hr2
      · have : r ∈ (aggregate ds (normalize ds country) w
            (resolveZones ds (normalize ds country))).filter ratePos := by
          rw [hresults] at hr1
          exact (List.mem_insertionSort rateLE).mp hr1
        exact hrep r (List.mem_filter.mp this).1 hkr
      · have : r ∈ (aggregate ds (normalize ds country) w
            (resolveZones ds (normalize ds country))).filter (fun x => ! ratePos x) := by
          rw [hexcluded] at hr2
          exact hr2
        exact hrep r (List.mem_filter.mp this).1 hkr

/-- Witness for C4: the duplicate dataset keeps exactly one direct-tagged
match for the shared carrier, service type and final rate. -/
theorem findRates_dedup_direct_witness :
    ((findRatesOk dupDataset wCountry 2).results ++
        (findRatesOk dupDataset wCountry 2).excluded).countP
        (fun r => decide (resultKey r = resultKey dupDirectResult)) = 1 ∧
      (0 < dupDirectResult.final_rate →
        (findRatesOk dupDataset wCountry 2).results.countP
          (fun r => decide (resultKey r = resultKey dupDirectResult)) = 1) ∧
      ∀ r ∈ (findRatesOk dupDataset wCountry 2).results ++
          (findRatesOk dupDataset wCountry 2).excluded,
        resultKey r = resultKey dupDirectResult →
          r.match_type = MatchType.direct :=
  findRates_dedup_direct dupDataset wCountry 2
    (findRatesOk dupDataset wCountry 2) dupDirectResult dupZoneResult rfl
    (by decide) (by decide) (by decide)

end Mic
